import Mathlib

/-!
Shallow embedding of the mikan-pro HoshinoBot plugin (src/mikan_pro.py and
src/utils.py) and proofs about it.

The embedding covers:
* the durable `Episode` record and the in-memory system state (`MState`):
  the episode store, the `pending_task` list (as a list of episode ids,
  every mutation in the source is immediately followed by `save()`, so the
  store and the in-memory objects never diverge), and the auto-increment
  id counter of the `id` primary key;
* `Mikan.add_ep` (including the inlined `Mikan.download` it calls),
  with the free-disk-space reading and the result of `aria2.call('addUri', ...)`
  supplied as parameters, since they are external effects.  The NOT NULL
  constraint on the `hash` column (peewee fields default to `null=False`;
  the schema marks only `aria2_gid` as `null=True`) is modelled
  explicitly: the hash-omitting `Episode.create` INSERT is rejected and
  raises `IntegrityError`, persisting nothing.  A counterfactual variant
  in which the insert succeeds is kept, clearly named, as the ingestion
  operation of the terminal-absorption state machine, whose behaviors
  strictly include the source's;
* `Mikan.check_jobs`, with the result of `aria2.call('tellStatus', gid)`
  supplied as an oracle function.  The Python `for ep in self.pending_task`
  loop with `self.pending_task.remove(ep)` inside is modelled with CPython's
  actual list-iterator semantics: the iterator keeps a cursor that is
  incremented once per yielded element and is not adjusted when `remove`
  shifts the list, which is why removing the current element skips the
  element after it.  The loop is written with explicit fuel; the cursor
  increases by one per iteration and the list never grows, so the initial
  list length bounds the number of iterations and the fuel-exhausted value
  coincides with the normal loop exit value;
* `Mikan.display_files`, together with a faithful model of Python's
  `posixpath.commonpath` and `posixpath.basename` (the plugin targets
  Linux/Windows; the POSIX code path is modelled);
* `Aria2Client.call` from src/utils.py: the JSON request body it posts and
  its handling of the HTTP status and of the decoded response.

Exceptions that the source raises and does not catch are modelled as an
explicit abort flag (for `check_jobs`) or as `Except` (for the client);
runtime type errors of the dynamic host language (e.g. feed fields that are
not of the annotated type) are outside the embedding.
-/

namespace MikanPro

/-- Python `str.split('/')`, character by character on the underlying
character list (`"".split('/') == ['']`, empty segments kept). -/
def splitSlashChars : List Char → List (List Char)
  | [] => [[]]
  | c :: t =>
    let r := splitSlashChars t
    if c = '/' then [] :: r
    else
      match r with
      | h :: t2 => (c :: h) :: t2
      | [] => [[c]]

/-- Python `str.split('/')` on strings. -/
def splitSlash (p : String) : List String :=
  (splitSlashChars p.data).map (fun cs => String.mk cs)

/-- Python `os.path.basename` for POSIX paths: everything after the last
slash. -/
def basename (p : String) : String :=
  (splitSlash p).getLastD ""

/-- The durable `Episode` row of src/mikan_pro.py (peewee model).
`hash` is `Option String` because the column may be absent/NULL on a given
row; `download_status` uses the source's integer coding
(0 not started, 1 ignored, 2 downloading, 3 failed, 4 complete). -/
structure Episode where
  id : Nat
  title : String
  hash : Option String
  size : Int
  pub_time : Nat
  torrent_url : String
  aria2_gid : Option String
  download_status : Nat
deriving Repr, DecidableEq

/-- A parsed RSS feed entry as `add_ep` consumes it: `entry.title`,
`entry.links` (list of hrefs), `entry.contentlength`,
`entry.published_parsed`. -/
structure Entry where
  title : String
  links : List String
  contentlength : Int
  published_parsed : Nat
deriving Repr, DecidableEq

/-- System state: the episode store (the SQLite table, in row order), the
`pending_task` list (ids of the episode objects it holds) and the next
value of the auto-increment primary key. -/
structure MState where
  store : List Episode
  pending : List Nat
  nextId : Nat
deriving Repr, DecidableEq

/-- `Episode.get_or_none(hash=h)`: first row whose `hash` column equals `h`. -/
def findByHash (store : List Episode) (h : String) : Option Episode :=
  store.find? (fun e => e.hash == some h)

/-- Fetching a row by primary key (the row an `ep.save()` UPDATE targets). -/
def lookupId (store : List Episode) (i : Nat) : Option Episode :=
  store.find? (fun e => e.id == i)

/-- `ep.save()` for an episode with id `i`: UPDATE of the row(s) with that
primary key. -/
def updateEp (store : List Episode) (i : Nat) (f : Episode → Episode) : List Episode :=
  store.map (fun e => if e.id == i then f e else e)

/-- `hash_ = os.path.basename(entry.links[0].href)` in `add_ep`. -/
def entryHash (entry : Entry) : String :=
  basename (entry.links.headD "")

/-- The row described by the field assignments the `Episode.create(...)`
call in `add_ep` passes (lines 140-146): `title`, `size`, `pub_time`,
`torrent_url` and `download_status = 0` — and neither `hash` nor
`aria2_gid`, so both are unset in the described row.  This is what the
INSERT attempts to store; whether the schema accepts it is a separate
question (`episodeRowOk`). -/
def freshEpisode (s : MState) (entry : Entry) : Episode :=
  { id := s.nextId
    title := entry.title
    hash := none
    size := entry.contentlength
    pub_time := entry.published_parsed
    torrent_url := entry.links.getLastD ""
    aria2_gid := none
    download_status := 0 }

/-- Whether a row satisfies the NOT NULL constraints of the episode table
the plugin itself creates (`Episode.create_table()`, src/mikan_pro.py
lines 206-207).  peewee fields default to `null=False`; the schema marks
only `aria2_gid` as `null=True` (line 51), so in particular
`hash = pw.CharField(index=True)` (line 45) is NOT NULL: an INSERT whose
`hash` is unset is rejected by SQLite with a NOT NULL constraint failure,
which peewee raises as `IntegrityError`. -/
def episodeRowOk (e : Episode) : Bool :=
  e.hash.isSome

/-- The mutation `Mikan.download` performs on success of
`aria2.call('addUri', ...)`. -/
def markDownloading (gid : String) (e : Episode) : Episode :=
  { e with aria2_gid := some gid, download_status := 2 }

/-- Outcome of one `add_ep` call: the state afterwards, whether `download`
attempted the daemon call, and whether an exception escaped `add_ep`
(which contains no try/except). -/
structure AddResult where
  state : MState
  daemonCalled : Bool
  raised : Bool
deriving Repr, DecidableEq

/-- `Mikan.add_ep` (src/mikan_pro.py lines 133-150) together with the
`Mikan.download` call it makes (lines 152-162).

* `freeSpace` is the value of `get_disk_spare_space(self.config['download_path'])`
  (src/utils.py lines 13-15 return `shutil.disk_usage(path).free`);
* `submit` is the outcome of `aria2.call('addUri', ...)` in `download`:
  `none` when the call raised (the `except` branch logs and returns) and
  `some gid` for the job id the daemon returned.

Control flow of the source: look up the hash (line 136); if found, return
(no-op).  Otherwise `Episode.create` INSERTs the row described by
`freshEpisode` — but that row has no `hash`, and the `hash` column is NOT
NULL (`episodeRowOk`), so the INSERT raises `IntegrityError`: nothing is
persisted, the free-space check (line 147) and `download` (line 150) are
never reached, and the exception escapes `add_ep`.  The model keeps the
downstream source code (space check, submit, pending append) behind the
constraint gate rather than collapsing it: its unreachability for the
row `add_ep` builds is a theorem (`(freshEpisode s entry).hash = none`),
not an assumption. -/
def addEp (freeSpace : Int) (submit : Option String) (entry : Entry) (s : MState) :
    AddResult :=
  match findByHash s.store (entryHash entry) with
  | some _ => ⟨s, false, false⟩
  | none =>
    let e := freshEpisode s entry
    if episodeRowOk e then
      let s1 : MState := { s with store := s.store ++ [e], nextId := s.nextId + 1 }
      if freeSpace < e.size then ⟨s1, false, false⟩
      else
        match submit with
        | none => ⟨s1, true, false⟩
        | some gid =>
          ⟨{ s1 with
              store := updateEp s1.store e.id (markDownloading gid)
              pending := s1.pending ++ [e.id] }, true, false⟩
    else ⟨s, false, true⟩

/-- The counterfactual run of `add_ep` in which the `Episode.create`
INSERT succeeds (as it would if the schema accepted the row, e.g. had the
source passed the missing `hash=` keyword): the row is stored, then the
space check and `download` run as written in lines 147-162.  The returned
`Bool` records whether `download` attempted the daemon call.  This
exhibits strictly more state changes than the source's `add_ep`, whose
create path persists nothing (see `addEp`); it is the ingestion operation
of the terminal-absorption state machine below, so that safety proved
over these operations covers the source's behavior a fortiori — the
source's actual ingestion state change (the identity) is itself realized
within the operation set by any duplicate-hash entry. -/
def addEpInsertOk (freeSpace : Int) (submit : Option String) (entry : Entry)
    (s : MState) : MState × Bool :=
  match findByHash s.store (entryHash entry) with
  | some _ => (s, false)
  | none =>
    let e := freshEpisode s entry
    let s1 : MState := { s with store := s.store ++ [e], nextId := s.nextId + 1 }
    if freeSpace < e.size then (s1, false)
    else
      match submit with
      | none => (s1, true)
      | some gid =>
        ({ s1 with
            store := updateEp s1.store e.id (markDownloading gid)
            pending := s1.pending ++ [e.id] }, true)

/-- The decoded object `check_jobs` receives back from
`aria2.call('tellStatus', gid)` and reads `followedBy` / `status` / `files`
from (an empty `followedBy` models an absent or empty key: both are falsy
for the walrus test `if followedBy := result.get('followedBy')`). -/
structure Resp where
  followedBy : List String
  status : String
  files : List String
deriving Repr, DecidableEq

/-- The behaviour of `await self.aria2.call('tellStatus', gid)` during one
pass: `.error ()` when the call raises, `.ok resp` for the decoded value.
A `pending_task` episode always has `aria2_gid` set (it is assigned before
the append in `download` and the recovery query selects downloading rows);
a missing gid is collapsed to `""`. -/
def Oracle : Type := String → Except Unit Resp

/-- Result of one `check_jobs` pass: the final state, the gids passed to
`tellStatus` in call order, the `(episode id, files)` arguments of the
`display_files` tasks spawned, and whether an uncaught exception escaped
the loop (aborting the pass). -/
structure CheckResult where
  state : MState
  polled : List String
  displays : List (Nat × List String)
  aborted : Bool
deriving Repr, DecidableEq

/-- `ep.aria2_gid = followedBy[0]`. -/
def setGid (g : String) (e : Episode) : Episode :=
  { e with aria2_gid := some g }

/-- `ep.download_status = n`. -/
def setStatus (n : Nat) (e : Episode) : Episode :=
  { e with download_status := n }

/-- How `check_jobs` reacts to one successfully decoded `tellStatus`
response for the episode with id `epId` (the body of the loop after the
call, src/mikan_pro.py lines 168-192), in source order: a truthy
`followedBy` updates the gid and saves (and skips the status checks);
otherwise `active`/`waiting`/`paused` continue; `error` sets status 3,
saves and removes from `pending_task`; `complete` sets status 4, saves,
removes, and spawns `display_files(ep, result['files'])` (the returned
option is the spawned task's argument pair); `removed` — like any status
string not in the chain, which falls off the end of the function body —
does nothing.  `s.pending.erase epId` is `self.pending_task.remove(ep)`:
peewee models compare by primary key, so it drops the first occurrence of
the episode's id. -/
def stepResp (s : MState) (epId : Nat) (resp : Resp) :
    MState × Option (Nat × List String) :=
  match resp.followedBy with
  | f :: _ => ({ s with store := updateEp s.store epId (setGid f) }, none)
  | [] =>
    if resp.status == "active" then (s, none)
    else if resp.status == "waiting" then (s, none)
    else if resp.status == "paused" then (s, none)
    else if resp.status == "error" then
      ({ s with store := updateEp s.store epId (setStatus 3)
                pending := s.pending.erase epId }, none)
    else if resp.status == "complete" then
      ({ s with store := updateEp s.store epId (setStatus 4)
                pending := s.pending.erase epId }, some (epId, resp.files))
    else (s, none)

/-- The loop of `Mikan.check_jobs` (src/mikan_pro.py lines 164-192) with
CPython's list-iterator semantics made explicit: `i` is the iterator
cursor (incremented once per yielded element, never adjusted by `remove`,
which is why removing the current element makes the loop skip the element
after it).  The cursor rises by one per iteration and the list never
grows, so the initial length bounds the iteration count; the
fuel-exhausted value equals the normal exit value, making the fuel
encoding exact for `fuel = s.pending.length`.

A raising `tellStatus` is not caught by anything in `check_jobs` and so
aborts the whole pass (the state mutations already saved persist); the
`none` case of the store lookup is unreachable for the states the system
produces (the list holds episodes that exist as rows) and is a skip. -/
def checkJobsGo (oracle : Oracle) :
    Nat → MState → Nat → List String → List (Nat × List String) → CheckResult
  | 0, s, _, polled, displays => ⟨s, polled, displays, false⟩
  | fuel+1, s, i, polled, displays =>
    if h : i < s.pending.length then
      match lookupId s.store (s.pending.get ⟨i, h⟩) with
      | none => checkJobsGo oracle fuel s (i+1) polled displays
      | some ep =>
        match oracle (ep.aria2_gid.getD "") with
        | .error _ => ⟨s, polled ++ [ep.aria2_gid.getD ""], displays, true⟩
        | .ok resp =>
          checkJobsGo oracle fuel (stepResp s (s.pending.get ⟨i, h⟩) resp).1 (i+1)
            (polled ++ [ep.aria2_gid.getD ""])
            (displays ++ (stepResp s (s.pending.get ⟨i, h⟩) resp).2.toList)
    else ⟨s, polled, displays, false⟩

/-- `Mikan.check_jobs`. -/
def checkJobs (oracle : Oracle) (s : MState) : CheckResult :=
  checkJobsGo oracle s.pending.length s 0 [] []

/-! ## `display_files` and Python `posixpath.commonpath` -/

/-- `path.split(sep)` followed by dropping empty and `'.'` components, as
`posixpath.commonpath` does. -/
def pathComponents (p : String) : List String :=
  (splitSlash p).filter (fun c => !(c == "") && !(c == "."))

/-- Python `p[:1] == sep`: does the path start with `/`. -/
def isAbs (p : String) : Bool :=
  match p.data with
  | c :: _ => c == '/'
  | [] => false

/-- Python `str.__lt__`: lexicographic comparison by code point. -/
def charListLt : List Char → List Char → Bool
  | [], [] => false
  | [], _ :: _ => true
  | _ :: _, [] => false
  | a :: as, b :: bs =>
    if a.toNat = b.toNat then charListLt as bs else Nat.blt a.toNat b.toNat

/-- Python `str.__lt__` on strings. -/
def strLt (a b : String) : Bool :=
  charListLt a.data b.data

/-- Python `list.__lt__` on lists of strings (elementwise lexicographic,
shorter list first on ties), as used by `min`/`max` in
`posixpath.commonpath`. -/
def listStrLt : List String → List String → Bool
  | [], [] => false
  | [], _ :: _ => true
  | _ :: _, [] => false
  | a :: as, b :: bs => if strLt a b then true else if a == b then listStrLt as bs else false

/-- The longest common leading run of two component lists (the loop over
`enumerate(s1)` in `posixpath.commonpath`, which breaks at the first
mismatch against `s2`). -/
def commonRun : List String → List String → List String
  | a :: as, b :: bs => if a == b then a :: commonRun as bs else []
  | _, _ => []

/-- Python `posixpath.commonpath`: `none` models the `ValueError` raised on
an empty input or on a mix of absolute and relative paths.  Splits every
path on `/`, drops empty and `'.'` components, takes the lexicographic
minimum and maximum of the component lists, and joins their common leading
run, restoring a leading `/` for absolute inputs. -/
def commonpath (paths : List String) : Option String :=
  match paths with
  | [] => none
  | p :: ps =>
    if (p :: ps).all (fun q => isAbs q) || (p :: ps).all (fun q => !(isAbs q)) then
      let split := (p :: ps).map pathComponents
      let s1 := split.foldl (fun m x => if listStrLt x m then x else m) (pathComponents p)
      let s2 := split.foldl (fun m x => if listStrLt m x then x else m) (pathComponents p)
      let root := if isAbs p then "/" else ""
      some (root ++ String.intercalate "/" (commonRun s1 s2))
    else
      none

/-- `Mikan.display_files` (src/mikan_pro.py lines 194-201): computes
`src = os.path.commonpath(files)`, runs the configured move command with
`{src}` substituted, awaits it, then broadcasts the notice message.
Returns the `src` handed to the move command and the broadcast text;
`none` models `commonpath` raising (which kills the spawned task). -/
def displayFiles (public_url : String) (ep : Episode) (files : List String) :
    Option (String × String) :=
  match commonpath files with
  | none => none
  | some src =>
    some (src, "番剧更新：" ++ ep.title ++ "\n下载链接：" ++ public_url ++ basename src)

/-! ## `Aria2Client` (src/utils.py lines 67-97) -/

/-- JSON values, as much of them as the client touches. -/
inductive JVal where
  | str (s : String)
  | num (n : Int)
  | bool (b : Bool)
  | null
  | arr (xs : List JVal)
  | obj (fields : List (String × JVal))

/-- The `params` member of the JSON body `Aria2Client.call` posts:
`[f'token:{self.secret}', params]` — the token string followed by the
varargs tuple `params` serialized as one nested array. -/
def requestParams (secret : String) (params : List JVal) : List JVal :=
  [.str ("token:" ++ secret), .arr params]

/-- The whole JSON body posted by `Aria2Client.call`. -/
def buildRequest (secret : String) (method : String) (params : List JVal) : JVal :=
  .obj [("jsonrpc", .str "2.0"),
        ("method", .str ("aria2." ++ method)),
        ("params", .arr (requestParams secret params))]

/-- `dict.get(key)` on a decoded JSON object (`none` on non-objects, whose
`.get` would raise in Python; the client only ever decodes objects). -/
def jGet (v : JVal) (key : String) : Option JVal :=
  match v with
  | .obj fields => (fields.find? (fun kv => kv.fst == key)).map (fun kv => kv.snd)
  | _ => none

/-- Python truthiness of a decoded JSON value. -/
def jTruthy : JVal → Bool
  | .null => false
  | .bool b => b
  | .num n => !(n == 0)
  | .str s => !(s == "")
  | .arr xs => !xs.isEmpty
  | .obj fs => !fs.isEmpty

/-- Truthiness of `result.get("code")` for the decoded response body. -/
def respCodeTruthy (body : JVal) : Bool :=
  match jGet body "code" with
  | some c => jTruthy c
  | none => false

/-- What the HTTP layer hands back: the status code and the decoded body. -/
structure HttpResp where
  status : Nat
  body : JVal

/-- The errors `Aria2Client.call` raises: `transport` for
`raise RuntimeError('aria2 error' + ...)` on a non-200 HTTP status, `rpc`
for `raise RuntimeError('aria2 response error' + ...)` on a truthy
top-level `code` in the decoded response. -/
inductive CallErr where
  | transport (status : Nat)
  | rpc
deriving Repr, DecidableEq

/-- The response handling of `Aria2Client.call` (src/utils.py lines
91-97): raise on `resp.status != 200`; decode; raise on a truthy
`result.get("code")`; otherwise `return result` — the whole decoded
response object, not its `result` member (its caller `Mikan.download`
extracts `result["result"]` itself). -/
def callHandle (resp : HttpResp) : Except CallErr JVal :=
  if resp.status ≠ 200 then .error (.transport resp.status)
  else if respCodeTruthy resp.body then .error .rpc
  else .ok resp.body

/-! ## Basic lemmas about the store operations -/

theorem updateEp_append_fresh (l : List Episode) (x : Episode) (f : Episode → Episode)
    (hl : ∀ e ∈ l, e.id ≠ x.id) :
    updateEp (l ++ [x]) x.id f = l ++ [f x] := by
  unfold updateEp
  rw [List.map_append]
  have h1 : l.map (fun e => if e.id == x.id then f e else e) = l := by
    have hcong : ∀ e ∈ l, (if e.id == x.id then f e else e) = e := by
      intro e he
      simp [hl e he]
    rw [List.map_congr_left hcong]
    exact List.map_id l
  have h2 : [x].map (fun e => if e.id == x.id then f e else e) = [f x] := by
    simp
  rw [h1, h2]

/-- The run of `add_ep` past a failed dedup lookup: the insert of the
hash-less row is rejected by the NOT NULL constraint, so nothing is
persisted, no daemon call is made, and the exception escapes. -/
theorem addEp_create_raises (freeSpace : Int) (submit : Option String)
    (entry : Entry) (s : MState)
    (hnew : findByHash s.store (entryHash entry) = none) :
    addEp freeSpace submit entry s = ⟨s, false, true⟩ := by
  unfold addEp
  rw [hnew]
  rfl

/-- The run of the counterfactual `addEpInsertOk` past a failed dedup
lookup, as one reduced case split on the space check and the submit
outcome. -/
theorem addEpInsertOk_create_reduced (freeSpace : Int) (submit : Option String)
    (entry : Entry) (s : MState)
    (hnew : findByHash s.store (entryHash entry) = none) :
    addEpInsertOk freeSpace submit entry s =
      (if freeSpace < entry.contentlength then
        ({ s with store := s.store ++ [freshEpisode s entry],
                  nextId := s.nextId + 1 }, false)
      else
        match submit with
        | none =>
          ({ s with store := s.store ++ [freshEpisode s entry],
                    nextId := s.nextId + 1 }, true)
        | some gid =>
          ({ s with
              store := updateEp (s.store ++ [freshEpisode s entry])
                (freshEpisode s entry).id (markDownloading gid)
              pending := s.pending ++ [(freshEpisode s entry).id]
              nextId := s.nextId + 1 }, true)) := by
  unfold addEpInsertOk
  rw [hnew]
  rfl

/-! ## C1: duplicate-hash admission is a no-op -/

/-- C1: for every candidate whose `contentHash` already has an episode
record in the store, `add_ep` is a no-op and idempotent: it returns at
the dedup lookup, so no new episode record is created, no exception is
raised, no daemon call is made, and the state (store size, statuses,
pending set) is unchanged, both after one call and after a repeated
call. -/
theorem add_ep_duplicate_hash_noop (freeSpace : Int) (submit : Option String)
    (entry : Entry) (s : MState)
    (hdup : (findByHash s.store (entryHash entry)).isSome = true) :
    addEp freeSpace submit entry s = ⟨s, false, false⟩ ∧
    addEp freeSpace submit entry (addEp freeSpace submit entry s).state =
      ⟨s, false, false⟩ := by
  obtain ⟨e, he⟩ := Option.isSome_iff_exists.mp hdup
  have h1 : addEp freeSpace submit entry s = ⟨s, false, false⟩ := by
    unfold addEp
    rw [he]
  refine ⟨h1, ?_⟩
  rw [h1]
  exact h1

def c1Episode : Episode := ⟨1, "old", some "abc", 5, 0, "u", none, 0⟩

def c1Entry : Entry := ⟨"new", ["http://mikan/abc", "http://mikan/abc.torrent"], 9, 0⟩

def c1State : MState := ⟨[c1Episode], [], 2⟩

theorem add_ep_duplicate_hash_noop_witness :
    ((findByHash c1State.store (entryHash c1Entry)).isSome = true) ∧
    (addEp 100 (some "g") c1Entry c1State = ⟨c1State, false, false⟩ ∧
     addEp 100 (some "g") c1Entry (addEp 100 (some "g") c1Entry c1State).state =
       ⟨c1State, false, false⟩) :=
  ⟨by decide, add_ep_duplicate_hash_noop 100 (some "g") c1Entry c1State (by decide)⟩

/-! ## C4: the disk-space admission check -/

def c4Entry : Entry := ⟨"t", ["http://x/h1", "http://x/h1.torrent"], 100, 0⟩

def c4State : MState := ⟨[], [], 1⟩

/-- C4 counterexample: a fresh candidate of size 100 against free space
50 (so S > F).  The claim says admission sets and persists the episode's
status to `Ignored` (code 1); in fact `Episode.create` raises
`IntegrityError` (the NOT NULL `hash` column is never passed) before the
space check is consulted: nothing is persisted at all — the state is
unchanged and the store holds no row with status 1 — and the exception
escapes `add_ep`.  The other direction of the claim fails at the same
candidate with ample space (F = 1000 ≥ S): it does not proceed toward
`Downloading` either — no daemon call, state again unchanged. -/
theorem low_space_not_marked_ignored_cex :
    (addEp 50 (some "g") c4Entry c4State).state = c4State ∧
    (¬ ∃ e ∈ (addEp 50 (some "g") c4Entry c4State).state.store,
      e.download_status = 1) ∧
    (addEp 50 (some "g") c4Entry c4State).raised = true ∧
    (addEp 1000 (some "g") c4Entry c4State).daemonCalled = false ∧
    (addEp 1000 (some "g") c4Entry c4State).state = c4State := by decide

/-- C4 (amended): for a newly admitted candidate the disk-space rule
never takes effect: the `Episode.create` INSERT raises `IntegrityError`
before `get_disk_spare_space` is consulted, so for every size `S`, free
space `F` and submission outcome, admission persists nothing — in
particular the set of `Ignored` (status 1) rows is unchanged; no code
path in the source assigns status 1 at all — makes no daemon call, and
the exception escapes `add_ep`. -/
theorem admission_space_check (freeSpace : Int) (submit : Option String)
    (entry : Entry) (s : MState)
    (hnew : findByHash s.store (entryHash entry) = none) :
    addEp freeSpace submit entry s = ⟨s, false, true⟩ ∧
    (addEp freeSpace submit entry s).state.store.filter
        (fun e => e.download_status == 1) =
      s.store.filter (fun e => e.download_status == 1) := by
  have h1 := addEp_create_raises freeSpace submit entry s hnew
  refine ⟨h1, ?_⟩
  rw [h1]

def c4bEntry : Entry := ⟨"t", ["http://x/h2", "http://x/h2.torrent"], 100, 0⟩

theorem admission_space_check_witness :
    (findByHash c4State.store (entryHash c4bEntry) = none) ∧
    (addEp 50 (some "g") c4bEntry c4State = ⟨c4State, false, true⟩ ∧
     (addEp 50 (some "g") c4bEntry c4State).state.store.filter
         (fun e => e.download_status == 1) =
       c4State.store.filter (fun e => e.download_status == 1)) :=
  ⟨by decide, admission_space_check 50 (some "g") c4bEntry c4State (by decide)⟩

/-! ## C10: the create call omits the hash, and the insert is rejected -/

def c10Episode : Episode := ⟨1, "old", some "zzz", 5, 0, "u", none, 0⟩

def c10Entry : Entry := ⟨"new", ["http://x/h3", "http://x/h3.torrent"], 10, 0⟩

def c10State : MState := ⟨[c10Episode], [], 2⟩

/-- C10 counterexample: the claim that records `add_ep` creates are
STORED (with their hash unset) fails — for a fresh candidate the store
after the call is exactly the store before it (still the one pre-existing
row): nothing was stored, because the hash-less INSERT raises
`IntegrityError`, and the exception escapes `add_ep`. -/
theorem no_row_stored_by_admission_cex :
    findByHash c10State.store (entryHash c10Entry) = none ∧
    (addEp 1000 (some "g7") c10Entry c10State).state.store = c10State.store ∧
    (addEp 1000 (some "g7") c10Entry c10State).state.store.length = 1 ∧
    (addEp 1000 (some "g7") c10Entry c10State).raised = true := by decide

/-- C10 (amended): the `Episode.create` call in `add_ep` does pass
`title`, `size`, `pub_time`, `torrent_url` and `download_status` and
never the hash it computed for the duplicate lookup — the row it
describes has `hash` unset — but `hash` is a NOT NULL column, so the
INSERT is rejected (`IntegrityError`) and no episode record is created by
admission at all: the state is unchanged, and a later `findByHash`
lookup, for any hash string, returns exactly what it returned before the
call — a fortiori no admission-created episode can ever be found by
hash. -/
theorem hash_omitted_insert_rejected (freeSpace : Int) (submit : Option String)
    (entry : Entry) (s : MState)
    (hnew : findByHash s.store (entryHash entry) = none) :
    (freshEpisode s entry).hash = none ∧
    episodeRowOk (freshEpisode s entry) = false ∧
    addEp freeSpace submit entry s = ⟨s, false, true⟩ ∧
    ∀ h2 : String,
      findByHash (addEp freeSpace submit entry s).state.store h2 =
        findByHash s.store h2 := by
  have h1 := addEp_create_raises freeSpace submit entry s hnew
  refine ⟨rfl, rfl, h1, fun h2 => ?_⟩
  rw [h1]

theorem hash_omitted_insert_rejected_witness :
    (findByHash c10State.store (entryHash c10Entry) = none) ∧
    ((freshEpisode c10State c10Entry).hash = none ∧
     episodeRowOk (freshEpisode c10State c10Entry) = false ∧
     addEp 1000 (some "g7") c10Entry c10State = ⟨c10State, false, true⟩ ∧
     ∀ h2 : String,
       findByHash (addEp 1000 (some "g7") c10Entry c10State).state.store h2 =
         findByHash c10State.store h2) :=
  ⟨by decide,
   hash_omitted_insert_rejected 1000 (some "g7") c10Entry c10State (by decide)⟩

/-! ## C5: the completion handler and `commonpath` -/

def c5Episode : Episode := ⟨1, "showtitle", none, 10, 0, "u", some "g2", 2⟩

/-- C5 counterexample: for the reported file list `["/d/show/ep1.mkv"]`
the move command is NOT invoked with `src="/d/show"`: Python's
`os.path.commonpath` of a single path is that path itself, so `src` is
`"/d/show/ep1.mkv"`. -/
theorem commonpath_single_file_cex :
    (displayFiles "http://pub/" c5Episode ["/d/show/ep1.mkv"]).map (fun r => r.fst)
      = some "/d/show/ep1.mkv" ∧
    ¬ ((displayFiles "http://pub/" c5Episode ["/d/show/ep1.mkv"]).map (fun r => r.fst)
      = some "/d/show") := by decide

def c5State : MState := ⟨[c5Episode], [1], 2⟩

def c5Oracle : Oracle := fun g =>
  if g == "g2" then .ok ⟨[], "complete", ["/d/show/ep1.mkv"]⟩ else .ok ⟨[], "active", []⟩

/-- C5 (amended): when the daemon reports `complete` with a file list, the
episode becomes `Completed` (status 4) and the completion handler is
spawned with that file list; it runs the move command with `src` equal to
Python's `commonpath` of the reported paths and broadcasts the episode
title plus `public_url ++ basename src`.  For the single file
`"/d/show/ep1.mkv"` the common path is the file path itself (not
`"/d/show"`), so the notification references `ep1.mkv`; for two files in
one directory the common path is that directory. -/
theorem completion_move_and_notify :
    ((checkJobs c5Oracle c5State).state.store.map (fun e => e.download_status)
        = [4]) ∧
    (checkJobs c5Oracle c5State).displays = [(1, ["/d/show/ep1.mkv"])] ∧
    displayFiles "http://pub/" c5Episode ["/d/show/ep1.mkv"] =
      some ("/d/show/ep1.mkv", "番剧更新：showtitle\n下载链接：http://pub/ep1.mkv") ∧
    commonpath ["/d/show/ep1.mkv", "/d/show/ep2.mkv"] = some "/d/show" := by decide

/-! ## C6: the request's params member -/

/-- C6 counterexample: for a call with one positional parameter `"gid1"`
the params member is `["token:secret", ["gid1"]]`, not the flat
`["token:secret", "gid1"]` the claim describes. -/
theorem rpc_params_not_flat_cex :
    requestParams "secret" [JVal.str "gid1"] ≠
      [JVal.str "token:secret", JVal.str "gid1"] := by
  intro h
  have h2 := List.cons.inj h
  have h3 := List.cons.inj h2.2
  exact JVal.noConfusion h3.1

/-- C6 (amended): the JSON-RPC request's params member is exactly the
authentication token string `"token:<secret>"` followed by ONE further
element: the array of the positional parameters p1..pn in order.  The
varargs tuple is serialized as a nested array, not flattened into the
params list. -/
theorem rpc_params_token_then_nested (secret method2 : String) (ps : List JVal) :
    jGet (buildRequest secret method2 ps) "params"
      = some (JVal.arr [JVal.str ("token:" ++ secret), JVal.arr ps]) ∧
    requestParams secret ps = JVal.str ("token:" ++ secret) :: [JVal.arr ps] :=
  ⟨rfl, rfl⟩

/-! ## C7: what `call` returns and raises -/

def c7Body : JVal :=
  JVal.obj [("jsonrpc", JVal.str "2.0"), ("id", JVal.str "qwer"),
            ("result", JVal.str "g1")]

/-- C7 counterexample: on a successful JSON-RPC response whose `result`
member is `"g1"`, `call` returns the whole decoded response object, not
the `result` member. -/
theorem call_returns_envelope_cex :
    callHandle ⟨200, c7Body⟩ = .ok c7Body ∧
    jGet c7Body "result" = some (JVal.str "g1") ∧
    callHandle ⟨200, c7Body⟩ ≠ .ok (JVal.str "g1") := by
  refine ⟨rfl, rfl, ?_⟩
  intro h
  have h2 : c7Body = JVal.str "g1" := Except.ok.inj h
  exact JVal.noConfusion h2

/-- C7 (amended): `call` raises a transport error iff the HTTP status is
not 200, raises an RPC error iff the status is 200 and the decoded
response carries a truthy top-level `code` member, and otherwise succeeds
returning the WHOLE decoded response object (callers extract `result`
themselves).  In both failure cases the error is raised to the caller,
never swallowed: success happens only in the remaining case. -/
theorem call_result_characterization (r : HttpResp) :
    (callHandle r = .ok r.body ↔ (r.status = 200 ∧ respCodeTruthy r.body = false)) ∧
    (callHandle r = .error (.transport r.status) ↔ r.status ≠ 200) ∧
    (callHandle r = .error .rpc ↔ (r.status = 200 ∧ respCodeTruthy r.body = true)) ∧
    (∀ v, callHandle r = .ok v → v = r.body) := by
  unfold callHandle
  by_cases h : r.status = 200
  · simp only [h, ne_eq, not_true_eq_false, if_false, decide_not]
    cases hc : respCodeTruthy r.body <;>
      simp [hc]
  · simp only [ne_eq, h, not_false_iff, if_true]
    refine ⟨by simp, by simp, by simp [h], fun v hv => ?_⟩
    exact Except.noConfusion hv

def c7Resp : HttpResp := ⟨200, c7Body⟩

theorem call_result_characterization_witness :
    (callHandle c7Resp = .ok c7Resp.body ↔
      (c7Resp.status = 200 ∧ respCodeTruthy c7Resp.body = false)) ∧
    (callHandle c7Resp = .error (.transport c7Resp.status) ↔ c7Resp.status ≠ 200) ∧
    (callHandle c7Resp = .error .rpc ↔
      (c7Resp.status = 200 ∧ respCodeTruthy c7Resp.body = true)) ∧
    (∀ v, callHandle c7Resp = .ok v → v = c7Resp.body) :=
  call_result_characterization c7Resp

/-! ## Lemmas about one reconciliation step -/

theorem updateEp_map_id (st : List Episode) (j : Nat) (f : Episode → Episode)
    (hf : ∀ e, (f e).id = e.id) :
    (updateEp st j f).map (fun e => e.id) = st.map (fun e => e.id) := by
  unfold updateEp
  rw [List.map_map]
  apply List.map_congr_left
  intro a _
  simp only [Function.comp_apply]
  by_cases h : a.id == j
  · rw [if_pos h, hf a]
  · rw [if_neg h]

theorem mem_updateEp (st : List Episode) (j : Nat) (f : Episode → Episode)
    (e : Episode) (he : e ∈ st) :
    (if e.id == j then f e else e) ∈ updateEp st j f :=
  List.mem_map_of_mem _ he

theorem mem_updateEp_of_ne (st : List Episode) (j : Nat) (f : Episode → Episode)
    (e : Episode) (he : e ∈ st) (hne : e.id ≠ j) :
    e ∈ updateEp st j f := by
  have h := mem_updateEp st j f e he
  simpa [beq_iff_eq, hne] using h

theorem stepResp_nextId (s : MState) (epId : Nat) (resp : Resp) :
    (stepResp s epId resp).1.nextId = s.nextId := by
  cases hfb : resp.followedBy with
  | cons f t => simp only [stepResp, hfb]
  | nil =>
    simp only [stepResp, hfb]
    split_ifs <;> rfl

theorem stepResp_ids (s : MState) (epId : Nat) (resp : Resp) :
    (stepResp s epId resp).1.store.map (fun e => e.id)
      = s.store.map (fun e => e.id) := by
  cases hfb : resp.followedBy with
  | cons f t =>
    simp only [stepResp, hfb]
    exact updateEp_map_id _ _ _ (fun e => rfl)
  | nil =>
    simp only [stepResp, hfb]
    split_ifs <;> first | rfl | exact updateEp_map_id _ _ _ (fun e => rfl)

theorem stepResp_pending_sub (s : MState) (epId : Nat) (resp : Resp) :
    ∀ k ∈ (stepResp s epId resp).1.pending, k ∈ s.pending := by
  cases hfb : resp.followedBy with
  | cons f t =>
    simp only [stepResp, hfb]
    exact fun k hk => hk
  | nil =>
    simp only [stepResp, hfb]
    split_ifs <;> intro k hk <;>
      first | exact hk | exact List.mem_of_mem_erase hk

theorem stepResp_mem (s : MState) (epId : Nat) (resp : Resp) (e : Episode)
    (he : e ∈ s.store) :
    ∃ e2 ∈ (stepResp s epId resp).1.store, e2.id = e.id ∧
      (e2.download_status = e.download_status ∨ e2.download_status = 3 ∨
       e2.download_status = 4) := by
  cases hfb : resp.followedBy with
  | cons f t =>
    simp only [stepResp, hfb]
    by_cases h : e.id == epId
    · exact ⟨setGid f e, by simpa [h] using mem_updateEp s.store epId (setGid f) e he,
        rfl, Or.inl rfl⟩
    · exact ⟨e, by simpa [h] using mem_updateEp s.store epId (setGid f) e he,
        rfl, Or.inl rfl⟩
  | nil =>
    simp only [stepResp, hfb]
    split_ifs
    · exact ⟨e, he, rfl, Or.inl rfl⟩
    · exact ⟨e, he, rfl, Or.inl rfl⟩
    · exact ⟨e, he, rfl, Or.inl rfl⟩
    · by_cases h : e.id == epId
      · exact ⟨setStatus 3 e,
          by simpa [h] using mem_updateEp s.store epId (setStatus 3) e he,
          rfl, Or.inr (Or.inl rfl)⟩
      · exact ⟨e, by simpa [h] using mem_updateEp s.store epId (setStatus 3) e he,
          rfl, Or.inl rfl⟩
    · by_cases h : e.id == epId
      · exact ⟨setStatus 4 e,
          by simpa [h] using mem_updateEp s.store epId (setStatus 4) e he,
          rfl, Or.inr (Or.inr rfl)⟩
      · exact ⟨e, by simpa [h] using mem_updateEp s.store epId (setStatus 4) e he,
          rfl, Or.inl rfl⟩
    · exact ⟨e, he, rfl, Or.inl rfl⟩

theorem stepResp_untouched (s : MState) (epId : Nat) (resp : Resp) (e : Episode)
    (he : e ∈ s.store) (hne : e.id ≠ epId) :
    e ∈ (stepResp s epId resp).1.store := by
  cases hfb : resp.followedBy with
  | cons f t =>
    simp only [stepResp, hfb]
    exact mem_updateEp_of_ne _ _ _ _ he hne
  | nil =>
    simp only [stepResp, hfb]
    split_ifs <;> first | exact he | exact mem_updateEp_of_ne _ _ _ _ he hne

theorem mem_updateEp_iff (st : List Episode) (j : Nat) (f : Episode → Episode)
    (e2 : Episode) :
    e2 ∈ updateEp st j f ↔ ∃ e ∈ st, (if e.id == j then f e else e) = e2 := by
  unfold updateEp
  exact List.mem_map

/-- One step keeps the two parts of the loop invariant: the pending list
has no duplicate ids, and no pending id points at a row whose status is
not `Downloading` (2). -/
theorem stepResp_invc (s : MState) (epId : Nat) (resp : Resp)
    (h1 : s.pending.Nodup)
    (h2 : ∀ e ∈ s.store, e.download_status ≠ 2 → ∀ k ∈ s.pending, k ≠ e.id) :
    (stepResp s epId resp).1.pending.Nodup ∧
    ∀ e2 ∈ (stepResp s epId resp).1.store, e2.download_status ≠ 2 →
      ∀ k ∈ (stepResp s epId resp).1.pending, k ≠ e2.id := by
  have hupd2 : ∀ (f : Episode → Episode), (∀ e, (f e).id = e.id) →
      (∀ e, (f e).download_status = e.download_status) →
      ∀ e2 ∈ updateEp s.store epId f, e2.download_status ≠ 2 →
        ∀ k ∈ s.pending, k ≠ e2.id := by
    intro f hid hds e2 he2 hne k hk
    obtain ⟨e, he, rfl⟩ := (mem_updateEp_iff s.store epId f e2).mp he2
    by_cases h : e.id == epId
    · rw [if_pos h] at hne ⊢
      rw [hid]
      exact h2 e he (by rw [← hds e]; exact hne) k hk
    · rw [if_neg h] at hne ⊢
      exact h2 e he hne k hk
  have herase : ∀ (m : Nat),
      ∀ e2 ∈ updateEp s.store epId (setStatus m), e2.download_status ≠ 2 →
        ∀ k ∈ s.pending.erase epId, k ≠ e2.id := by
    intro m e2 he2 hne k hk
    obtain ⟨e, he, rfl⟩ := (mem_updateEp_iff s.store epId (setStatus m) e2).mp he2
    obtain ⟨hkne, hkmem⟩ := (List.Nodup.mem_erase_iff h1).mp hk
    by_cases h : e.id == epId
    · rw [if_pos h]
      have hidm : (setStatus m e).id = e.id := rfl
      rw [hidm, beq_iff_eq.mp h]
      exact hkne
    · rw [if_neg h] at hne ⊢
      exact h2 e he hne k hkmem
  cases hfb : resp.followedBy with
  | cons f t =>
    simp only [stepResp, hfb]
    exact ⟨h1, hupd2 (setGid f) (fun e => rfl) (fun e => rfl)⟩
  | nil =>
    simp only [stepResp, hfb]
    split_ifs
    · exact ⟨h1, h2⟩
    · exact ⟨h1, h2⟩
    · exact ⟨h1, h2⟩
    · exact ⟨h1.erase epId, herase 3⟩
    · exact ⟨h1.erase epId, herase 4⟩
    · exact ⟨h1, h2⟩

/-! ## Loop-level lemmas for `check_jobs` -/

/-- A reconciliation pass never deletes, inserts or re-keys store rows
(the id column is untouched row by row), never changes the id counter, and
only ever shrinks the pending list. -/
theorem checkJobsGo_shape (oracle : Oracle) (fuel : Nat) :
    ∀ (s : MState) (i : Nat) (polled : List String)
      (displays : List (Nat × List String)),
      ((checkJobsGo oracle fuel s i polled displays).state.store.map (fun e => e.id)
        = s.store.map (fun e => e.id)) ∧
      (checkJobsGo oracle fuel s i polled displays).state.nextId = s.nextId ∧
      (∀ k ∈ (checkJobsGo oracle fuel s i polled displays).state.pending,
        k ∈ s.pending) := by
  induction fuel with
  | zero => exact fun s i p d => ⟨rfl, rfl, fun k hk => hk⟩
  | succ n ih =>
    intro s i p d
    unfold checkJobsGo
    split
    next h =>
      split
      next => exact ih s (i+1) p d
      next ep hl =>
        split
        next => exact ⟨rfl, rfl, fun k hk => hk⟩
        next resp ho =>
          obtain ⟨ha, hb, hc⟩ := ih (stepResp s (s.pending.get ⟨i, h⟩) resp).1 (i+1)
            (p ++ [ep.aria2_gid.getD ""])
            (d ++ (stepResp s (s.pending.get ⟨i, h⟩) resp).2.toList)
          exact ⟨ha.trans (stepResp_ids s _ resp),
            hb.trans (stepResp_nextId s _ resp),
            fun k hk => stepResp_pending_sub s _ resp k (hc k hk)⟩
    next => exact ⟨rfl, rfl, fun k hk => hk⟩

/-- Any store row survives a reconciliation pass with the same id and
either its old status or one of the terminal codes 3 (`Failed`) and 4
(`Completed`). -/
theorem checkJobsGo_mem (oracle : Oracle) (fuel : Nat) :
    ∀ (s : MState) (i : Nat) (polled : List String)
      (displays : List (Nat × List String)) (e : Episode), e ∈ s.store →
      ∃ e2 ∈ (checkJobsGo oracle fuel s i polled displays).state.store,
        e2.id = e.id ∧ (e2.download_status = e.download_status ∨
          e2.download_status = 3 ∨ e2.download_status = 4) := by
  induction fuel with
  | zero => exact fun s i p d e he => ⟨e, he, rfl, Or.inl rfl⟩
  | succ n ih =>
    intro s i p d e he
    unfold checkJobsGo
    split
    next h =>
      split
      next => exact ih s (i+1) p d e he
      next ep hl =>
        split
        next => exact ⟨e, he, rfl, Or.inl rfl⟩
        next resp ho =>
          obtain ⟨e2, he2, hid, hst⟩ := stepResp_mem s (s.pending.get ⟨i, h⟩) resp e he
          obtain ⟨e3, he3, hid3, hst3⟩ := ih (stepResp s (s.pending.get ⟨i, h⟩) resp).1
            (i+1) (p ++ [ep.aria2_gid.getD ""])
            (d ++ (stepResp s (s.pending.get ⟨i, h⟩) resp).2.toList) e2 he2
          refine ⟨e3, he3, hid3.trans hid, ?_⟩
          rcases hst3 with h3 | h3 | h3
          · rw [h3]
            exact hst
          · exact Or.inr (Or.inl h3)
          · exact Or.inr (Or.inr h3)
    next => exact ⟨e, he, rfl, Or.inl rfl⟩

/-- A store row whose id is referenced by no pending entry is completely
untouched by a reconciliation pass. -/
theorem checkJobsGo_untouched (oracle : Oracle) (fuel : Nat) :
    ∀ (s : MState) (i : Nat) (polled : List String)
      (displays : List (Nat × List String)) (e : Episode), e ∈ s.store →
      (∀ k ∈ s.pending, k ≠ e.id) →
      e ∈ (checkJobsGo oracle fuel s i polled displays).state.store := by
  induction fuel with
  | zero => exact fun s i p d e he _ => he
  | succ n ih =>
    intro s i p d e he hex
    unfold checkJobsGo
    split
    next h =>
      split
      next => exact ih s (i+1) p d e he hex
      next ep hl =>
        split
        next => exact he
        next resp ho =>
          have hmem : s.pending.get ⟨i, h⟩ ∈ s.pending := List.get_mem s.pending i h
          have hne : e.id ≠ s.pending.get ⟨i, h⟩ :=
            fun hcon => hex _ hmem hcon.symm
          exact ih (stepResp s (s.pending.get ⟨i, h⟩) resp).1 (i+1)
            (p ++ [ep.aria2_gid.getD ""])
            (d ++ (stepResp s (s.pending.get ⟨i, h⟩) resp).2.toList) e
            (stepResp_untouched s _ resp e he hne)
            (fun k hk => hex k (stepResp_pending_sub s _ resp k hk))
    next => exact he

/-- A reconciliation pass keeps the loop invariant: the pending list stays
duplicate-free and keeps referencing only rows whose status is
`Downloading` (2). -/
theorem checkJobsGo_invc (oracle : Oracle) (fuel : Nat) :
    ∀ (s : MState) (i : Nat) (polled : List String)
      (displays : List (Nat × List String)),
      s.pending.Nodup →
      (∀ e ∈ s.store, e.download_status ≠ 2 → ∀ k ∈ s.pending, k ≠ e.id) →
      ((checkJobsGo oracle fuel s i polled displays).state.pending.Nodup ∧
       ∀ e ∈ (checkJobsGo oracle fuel s i polled displays).state.store,
         e.download_status ≠ 2 →
         ∀ k ∈ (checkJobsGo oracle fuel s i polled displays).state.pending,
           k ≠ e.id) := by
  induction fuel with
  | zero => exact fun s i p d h1 h2 => ⟨h1, h2⟩
  | succ n ih =>
    intro s i p d h1 h2
    unfold checkJobsGo
    split
    next h =>
      split
      next => exact ih s (i+1) p d h1 h2
      next ep hl =>
        split
        next => exact ⟨h1, h2⟩
        next resp ho =>
          obtain ⟨h1s, h2s⟩ := stepResp_invc s (s.pending.get ⟨i, h⟩) resp h1 h2
          exact ih (stepResp s (s.pending.get ⟨i, h⟩) resp).1 (i+1)
            (p ++ [ep.aria2_gid.getD ""])
            (d ++ (stepResp s (s.pending.get ⟨i, h⟩) resp).2.toList) h1s h2s
    next => exact ⟨h1, h2⟩

theorem lookupId_singleton (x : Episode) (k : Nat) (hk : x.id = k) :
    lookupId [x] k = some x := by
  subst hk
  simp [lookupId, List.find?]

/-- When the pending list holds exactly one episode, a pass polls exactly
that episode's gid, whatever the daemon answers. -/
theorem checkJobs_single_polls (oracle : Oracle) (st : List Episode) (pid : Nat)
    (n : Nat) (ep : Episode) (g : String)
    (hl : lookupId st pid = some ep) (hg : ep.aria2_gid = some g) :
    (checkJobs oracle ⟨st, [pid], n⟩).polled = [g] := by
  show (checkJobsGo oracle 1 ⟨st, [pid], n⟩ 0 [] []).polled = [g]
  unfold checkJobsGo
  split
  next h =>
    simp only [List.get]
    rw [hl]
    dsimp only
    rw [hg]
    dsimp only [Option.getD]
    cases ho : oracle g with
    | error u => rfl
    | ok resp => rfl
  next h => exact absurd (Nat.succ_pos 0) h

/-! ## C2: a tellStatus failure is not caught -/

def c2Ep1 : Episode := ⟨1, "t1", none, 10, 0, "u1", some "g1", 2⟩

def c2Ep2 : Episode := ⟨2, "t2", none, 10, 0, "u2", some "g2", 2⟩

def c2State : MState := ⟨[c2Ep1, c2Ep2], [1, 2], 3⟩

def c2Oracle : Oracle := fun g =>
  if g == "g1" then .error () else .ok ⟨[], "active", []⟩

/-- C2 counterexample: with two members in the active job set, a raising
`tellStatus` on the first is not caught at any per-episode boundary: the
pass aborts, and the second member (gid "g2", still Downloading) is never
checked in that pass — refuting the claim that every other member is
still checked. -/
theorem check_jobs_error_not_caught_cex :
    (2 ∈ c2State.pending) ∧ (c2Ep2 ∈ c2State.store) ∧
    c2Ep2.download_status = 2 ∧
    (checkJobs c2Oracle c2State).aborted = true ∧
    ¬ ("g2" ∈ (checkJobs c2Oracle c2State).polled) := by decide

/-- C2 (amended): a failure of an episode's `tellStatus` call is NOT
caught at the per-episode boundary: when the call for the head of the
pending list raises, the exception escapes `check_jobs` and aborts the
whole pass — only the failing episode was polled, no state change is
made beyond what was already saved, and the remaining members of the
active job set are not checked until the next pass. -/
theorem tellstatus_error_aborts_pass (oracle : Oracle) (s : MState) (epId : Nat)
    (rest : List Nat) (ep : Episode) (g : String)
    (hp : s.pending = epId :: rest)
    (hl : lookupId s.store epId = some ep)
    (hg : ep.aria2_gid = some g)
    (he : oracle g = .error ()) :
    checkJobs oracle s = ⟨s, [g], [], true⟩ := by
  obtain ⟨store, pending, nid⟩ := s
  dsimp only at hp hl
  subst hp
  show checkJobsGo oracle (rest.length + 1) ⟨store, epId :: rest, nid⟩ 0 [] [] =
    ⟨⟨store, epId :: rest, nid⟩, [g], [], true⟩
  unfold checkJobsGo
  split
  next h =>
    simp only [List.get]
    rw [hl]
    dsimp only
    rw [hg]
    dsimp only [Option.getD]
    rw [he]
    rfl
  next h => exact absurd (Nat.succ_pos rest.length) h

theorem tellstatus_error_aborts_pass_witness :
    (c2State.pending = 1 :: [2] ∧ lookupId c2State.store 1 = some c2Ep1 ∧
     c2Ep1.aria2_gid = some "g1" ∧ c2Oracle "g1" = .error ()) ∧
    checkJobs c2Oracle c2State = ⟨c2State, ["g1"], [], true⟩ :=
  ⟨⟨rfl, by decide, rfl, rfl⟩,
   tellstatus_error_aborts_pass c2Oracle c2State 1 [2] c2Ep1 "g1" rfl
     (by decide) rfl rfl⟩

/-! ## C3: what a pass does to the Downloading episodes -/

def c3Ep1 : Episode := ⟨1, "t1", none, 10, 0, "u1", some "g1", 2⟩

def c3Ep2 : Episode := ⟨2, "t2", none, 10, 0, "u2", some "g2", 2⟩

def c3State : MState := ⟨[c3Ep1, c3Ep2], [1, 2], 3⟩

def c3Oracle : Oracle := fun g =>
  if g == "g1" then .ok ⟨[], "complete", ["/d/f.mkv"]⟩ else .ok ⟨[], "active", []⟩

/-- C3 counterexample: the claim that each pass calls `tellStatus` for
EVERY member of the active job set fails: with members `[1, 2]`, when the
first completes it is removed from the list during iteration, which makes
Python's list iterator skip the next member — episode 2 (gid "g2") is
never polled in that pass, though reachable and Downloading. -/
theorem check_jobs_skips_next_member_cex :
    (2 ∈ c3State.pending) ∧
    (checkJobs c3Oracle c3State).polled = ["g1"] ∧
    ¬ ("g2" ∈ (checkJobs c3Oracle c3State).polled) ∧
    (checkJobs c3Oracle c3State).aborted = false := by decide

/-- C3 (amended): removing a finished episode from the pending list during
iteration makes the loop skip the member after it, so a pass need not
poll every member of the active job set.  The rest of the claim holds:
after a pass, every episode that was `Downloading` (2) at its start is
still in the store (no row vanishes — ids are preserved row for row) with
a status in {Downloading (2), Failed (3), Completed (4)}. -/
theorem check_jobs_preserves_downloading (oracle : Oracle) (s : MState)
    (e : Episode) (he : e ∈ s.store) (hs : e.download_status = 2) :
    ((checkJobs oracle s).state.store.map (fun x => x.id)
      = s.store.map (fun x => x.id)) ∧
    ∃ e2 ∈ (checkJobs oracle s).state.store, e2.id = e.id ∧
      (e2.download_status = 2 ∨ e2.download_status = 3 ∨
       e2.download_status = 4) := by
  refine ⟨(checkJobsGo_shape oracle s.pending.length s 0 [] []).1, ?_⟩
  obtain ⟨e2, he2, hid, hst⟩ := checkJobsGo_mem oracle s.pending.length s 0 [] [] e he
  rw [hs] at hst
  exact ⟨e2, he2, hid, hst⟩

theorem check_jobs_preserves_downloading_witness :
    (c3Ep2 ∈ c3State.store ∧ c3Ep2.download_status = 2) ∧
    (((checkJobs c3Oracle c3State).state.store.map (fun x => x.id)
        = c3State.store.map (fun x => x.id)) ∧
     ∃ e2 ∈ (checkJobs c3Oracle c3State).state.store, e2.id = c3Ep2.id ∧
       (e2.download_status = 2 ∨ e2.download_status = 3 ∨
        e2.download_status = 4)) :=
  ⟨⟨by decide, rfl⟩,
   check_jobs_preserves_downloading c3Oracle c3State c3Ep2 (by decide) rfl⟩

/-! ## C8: the followed-by rewrite -/

/-- C8: when the poll response for a Downloading episode carries a
(nonempty) `followedBy` pointer, the pass replaces the episode's `jobId`
with the first followed id and persists it, the status stays
`Downloading` (2), nothing else happens to that episode in the pass (no
removal, no completion handler, not aborted), and the next pass polls the
new id, whatever the daemon then answers. -/
theorem followed_by_updates_gid (ep : Episode) (g g2 : String) (rest : List String)
    (resp : Resp) (oracle : Oracle) (n : Nat)
    (hgid : ep.aria2_gid = some g)
    (hst : ep.download_status = 2)
    (ho : oracle g = .ok resp)
    (hf : resp.followedBy = g2 :: rest) :
    checkJobs oracle ⟨[ep], [ep.id], n⟩ =
      ⟨⟨[setGid g2 ep], [ep.id], n⟩, [g], [], false⟩ ∧
    (setGid g2 ep).download_status = 2 ∧
    ∀ oracle2 : Oracle,
      (checkJobs oracle2 ⟨[setGid g2 ep], [ep.id], n⟩).polled = [g2] := by
  refine ⟨?_, hst, ?_⟩
  · show checkJobsGo oracle 1 ⟨[ep], [ep.id], n⟩ 0 [] [] =
      ⟨⟨[setGid g2 ep], [ep.id], n⟩, [g], [], false⟩
    unfold checkJobsGo
    split
    next h =>
      simp only [List.get]
      rw [lookupId_singleton ep ep.id rfl]
      dsimp only
      rw [hgid]
      dsimp only [Option.getD]
      rw [ho]
      unfold checkJobsGo
      simp only [stepResp, hf]
      simp [updateEp]
    next h => exact absurd (Nat.succ_pos 0) h
  · intro oracle2
    exact checkJobs_single_polls oracle2 [setGid g2 ep] ep.id n (setGid g2 ep) g2
      (lookupId_singleton (setGid g2 ep) ep.id rfl) rfl

def c8Ep : Episode := ⟨1, "t", none, 10, 0, "u", some "g1", 2⟩

def c8Resp : Resp := ⟨["g2"], "active", []⟩

def c8Oracle : Oracle := fun g =>
  if g == "g1" then .ok c8Resp else .ok ⟨[], "active", []⟩

theorem followed_by_updates_gid_witness :
    (c8Ep.aria2_gid = some "g1" ∧ c8Ep.download_status = 2 ∧
     c8Oracle "g1" = .ok c8Resp ∧ c8Resp.followedBy = "g2" :: []) ∧
    (checkJobs c8Oracle ⟨[c8Ep], [c8Ep.id], 2⟩ =
      ⟨⟨[setGid "g2" c8Ep], [c8Ep.id], 2⟩, ["g1"], [], false⟩ ∧
     (setGid "g2" c8Ep).download_status = 2 ∧
     ∀ oracle2 : Oracle,
       (checkJobs oracle2 ⟨[setGid "g2" c8Ep], [c8Ep.id], 2⟩).polled = ["g2"]) :=
  ⟨⟨rfl, rfl, rfl, rfl⟩,
   followed_by_updates_gid c8Ep "g1" "g2" [] c8Resp c8Oracle 2 rfl rfl rfl rfl⟩

/-! ## C9: the global state machine and terminal absorption -/

/-- The operations the running system applies to the state: one `add_ep`
call for one feed entry during `fetch_feeds` (with its external inputs:
free disk space and the outcome of the addUri submission), and one
`check_jobs` pass (with its tellStatus oracle).  A `scheduled_job` tick
is a sequence of these.  Ingestion is interpreted by `addEpInsertOk`,
the insert-succeeds counterfactual: its state changes strictly include
the source's (`add_ep` itself persists nothing on the create path and is
a no-op on the duplicate path, and the identity transition is realized
here by any duplicate-hash ingest), so the absorption theorem below
covers the source's behavior a fortiori. -/
inductive Op where
  | ingest (freeSpace : Int) (submit : Option String) (entry : Entry)
  | reconcile (oracle : Oracle)

def applyOp : Op → MState → MState
  | .ingest freeSpace submit entry, s => (addEpInsertOk freeSpace submit entry s).1
  | .reconcile oracle, s => (checkJobs oracle s).state

def applyOps (ops : List Op) (s : MState) : MState :=
  ops.foldl (fun t op => applyOp op t) s

/-- Well-formedness the SQLite schema guarantees for the durable store:
primary keys are unique and below the auto-increment counter. -/
def StoreWF (s : MState) : Prop :=
  (s.store.map (fun e => e.id)).Nodup ∧ ∀ e ∈ s.store, e.id < s.nextId

/-- A startup state (`initial_async`): `pending_task` is rebuilt as the
query for all rows with `download_status = 2`, in row order. -/
def Init (s : MState) : Prop :=
  StoreWF s ∧
  s.pending = (s.store.filter (fun e => e.download_status == 2)).map (fun e => e.id)

/-- States the system can be in: a startup state, or any state reached
from one by ingestion and reconciliation operations. -/
inductive Reachable : MState → Prop where
  | init : ∀ s, Init s → Reachable s
  | step : ∀ s op, Reachable s → Reachable (applyOp op s)

/-- The inductive invariant: unique row ids below the counter, a
duplicate-free pending list of ids below the counter, and no pending
entry referencing a row whose status is not `Downloading` (2). -/
def Inv (s : MState) : Prop :=
  (s.store.map (fun e => e.id)).Nodup ∧
  (∀ e ∈ s.store, e.id < s.nextId) ∧
  (∀ k ∈ s.pending, k < s.nextId) ∧
  s.pending.Nodup ∧
  (∀ e ∈ s.store, e.download_status ≠ 2 → ∀ k ∈ s.pending, k ≠ e.id)

theorem mem_id_inj (l : List Episode) (hn : (l.map (fun e => e.id)).Nodup)
    (a b : Episode) (ha : a ∈ l) (hb : b ∈ l) (hid : a.id = b.id) : a = b := by
  induction l with
  | nil => cases ha
  | cons x t ih =>
    rw [List.map_cons, List.nodup_cons] at hn
    rcases List.mem_cons.mp ha with rfl | ha2
    · rcases List.mem_cons.mp hb with rfl | hb2
      · rfl
      · exact absurd (hid ▸ List.mem_map_of_mem (fun e => e.id) hb2) hn.1
    · rcases List.mem_cons.mp hb with rfl | hb2
      · exact absurd (hid ▸ List.mem_map_of_mem (fun e => e.id) ha2) hn.1
      · exact ih hn.2 ha2 hb2

theorem lookupId_of_mem_nodup (l : List Episode) (e : Episode) (he : e ∈ l)
    (hn : (l.map (fun x => x.id)).Nodup) : lookupId l e.id = some e := by
  induction l with
  | nil => cases he
  | cons a t ih =>
    rw [List.map_cons, List.nodup_cons] at hn
    rcases List.mem_cons.mp he with rfl | he2
    · unfold lookupId
      simp [List.find?]
    · have hne : (a.id == e.id) = false := by
        rw [beq_eq_false_iff_ne]
        intro hcon
        exact hn.1 (hcon ▸ List.mem_map_of_mem (fun x => x.id) he2)
      unfold lookupId at ih ⊢
      rw [List.find?_cons_of_neg _ (by rw [hne]; exact Bool.false_ne_true)]
      exact ih he2 hn.2

theorem not_mem_ids_of_bound (l : List Episode) (n : Nat)
    (hb : ∀ e ∈ l, e.id < n) : ¬ n ∈ l.map (fun e => e.id) := by
  intro hmem
  obtain ⟨e, he, hid⟩ := List.mem_map.mp hmem
  have := hb e he
  omega

theorem nodup_append_single {α} [DecidableEq α] (l : List α) (a : α)
    (hl : l.Nodup) (ha : ¬ a ∈ l) : (l ++ [a]).Nodup := by
  rw [List.nodup_append]
  refine ⟨hl, List.nodup_singleton a, ?_⟩
  intro x hx hxa
  rw [List.mem_singleton] at hxa
  exact ha (hxa ▸ hx)

theorem init_inv (s : MState) (hi : Init s) : Inv s := by
  obtain ⟨⟨hnod, hbound⟩, hp⟩ := hi
  refine ⟨hnod, hbound, ?_, ?_, ?_⟩
  · intro k hk
    rw [hp] at hk
    obtain ⟨e, he, rfl⟩ := List.mem_map.mp hk
    exact hbound e (List.mem_of_mem_filter he)
  · rw [hp]
    have hsub := (List.filter_sublist
      (p := fun e => e.download_status == 2) s.store).map (fun e => e.id)
    exact List.Nodup.sublist hsub hnod
  · intro e he hds k hk hcon
    rw [hp] at hk
    obtain ⟨e2, he2, hid⟩ := List.mem_map.mp hk
    obtain ⟨he2s, he2f⟩ := List.mem_filter.mp he2
    have hst2 : e2.download_status = 2 := beq_iff_eq.mp he2f
    have : e2 = e := mem_id_inj s.store hnod e2 e he2s he (by rw [hid, hcon])
    exact hds (this ▸ hst2)

theorem addEpInsertOk_inv (freeSpace : Int) (submit : Option String) (entry : Entry)
    (s : MState) (hi : Inv s) : Inv (addEpInsertOk freeSpace submit entry s).1 := by
  obtain ⟨hnod, hbound, hpb, hpnod, hexcl⟩ := hi
  cases hfind : findByHash s.store (entryHash entry) with
  | some e =>
    have hrun : addEpInsertOk freeSpace submit entry s = (s, false) := by
      unfold addEpInsertOk
      rw [hfind]
    rw [hrun]
    exact ⟨hnod, hbound, hpb, hpnod, hexcl⟩
  | none =>
    have hidsx : (s.store ++ [freshEpisode s entry]).map (fun e => e.id)
        = s.store.map (fun e => e.id) ++ [s.nextId] := by
      rw [List.map_append]
      rfl
    have hnodx : ((s.store ++ [freshEpisode s entry]).map (fun e => e.id)).Nodup := by
      rw [hidsx]
      exact nodup_append_single _ _ hnod (not_mem_ids_of_bound s.store s.nextId hbound)
    have hboundx : ∀ e ∈ s.store ++ [freshEpisode s entry], e.id < s.nextId + 1 := by
      intro e he
      rcases List.mem_append.mp he with h0 | h0
      · exact Nat.lt_succ_of_lt (hbound e h0)
      · rw [List.mem_singleton.mp h0]
        exact Nat.lt_succ_self s.nextId
    have hpbx : ∀ k ∈ s.pending, k < s.nextId + 1 :=
      fun k hk => Nat.lt_succ_of_lt (hpb k hk)
    rw [addEpInsertOk_create_reduced freeSpace submit entry s hfind]
    by_cases hs : freeSpace < entry.contentlength
    · rw [if_pos hs]
      refine ⟨hnodx, hboundx, hpbx, hpnod, ?_⟩
      intro e he hds k hk
      rcases List.mem_append.mp he with h0 | h0
      · exact hexcl e h0 hds k hk
      · rw [List.mem_singleton.mp h0]
        exact fun hcon => absurd (hpb k hk) (by rw [hcon]; exact lt_irrefl _)
    · rw [if_neg hs]
      cases submit with
      | none =>
        refine ⟨hnodx, hboundx, hpbx, hpnod, ?_⟩
        intro e he hds k hk
        rcases List.mem_append.mp he with h0 | h0
        · exact hexcl e h0 hds k hk
        · rw [List.mem_singleton.mp h0]
          exact fun hcon => absurd (hpb k hk) (by rw [hcon]; exact lt_irrefl _)
      | some gid =>
        dsimp only
        have hupd := updateEp_append_fresh s.store (freshEpisode s entry)
          (markDownloading gid) (fun e2 he2 => Nat.ne_of_lt (hbound e2 he2))
        have hidsy : (updateEp (s.store ++ [freshEpisode s entry])
            (freshEpisode s entry).id (markDownloading gid)).map (fun e => e.id)
            = s.store.map (fun e => e.id) ++ [s.nextId] := by
          rw [hupd, List.map_append]
          rfl
        refine ⟨?_, ?_, ?_, ?_, ?_⟩
        · rw [hidsy]
          exact nodup_append_single _ _ hnod
            (not_mem_ids_of_bound s.store s.nextId hbound)
        · intro e he
          rw [hupd] at he
          rcases List.mem_append.mp he with h0 | h0
          · exact Nat.lt_succ_of_lt (hbound e h0)
          · rw [List.mem_singleton.mp h0]
            exact Nat.lt_succ_self s.nextId
        · intro k hk
          rcases List.mem_append.mp hk with h0 | h0
          · exact Nat.lt_succ_of_lt (hpb k h0)
          · rw [List.mem_singleton.mp h0]
            exact Nat.lt_succ_self s.nextId
        · exact nodup_append_single _ _ hpnod
            (fun hmem => absurd (hpb s.nextId hmem) (lt_irrefl _))
        · intro e he hds k hk
          rw [hupd] at he
          rcases List.mem_append.mp he with h0 | h0
          · rcases List.mem_append.mp hk with h1 | h1
            · exact hexcl e h0 hds k h1
            · rw [List.mem_singleton.mp h1]
              exact fun hcon => absurd (hbound e h0) (by rw [← hcon]; exact lt_irrefl _)
          · exact absurd (by rw [List.mem_singleton.mp h0]; rfl) hds

theorem checkJobs_inv (oracle : Oracle) (s : MState) (hi : Inv s) :
    Inv (checkJobs oracle s).state := by
  obtain ⟨hnod, hbound, hpb, hpnod, hexcl⟩ := hi
  obtain ⟨hids, hnext, hpend⟩ := checkJobsGo_shape oracle s.pending.length s 0 [] []
  obtain ⟨hpnod2, hexcl2⟩ :=
    checkJobsGo_invc oracle s.pending.length s 0 [] [] hpnod hexcl
  refine ⟨?_, ?_, ?_, hpnod2, hexcl2⟩
  · show ((checkJobsGo oracle s.pending.length s 0 [] []).state.store.map
      (fun e => e.id)).Nodup
    rw [hids]
    exact hnod
  · intro e he
    have hmem : e.id ∈ (checkJobsGo oracle s.pending.length s 0 [] []).state.store.map
        (fun x => x.id) := List.mem_map_of_mem (fun x => x.id) he
    rw [hids] at hmem
    obtain ⟨e2, he2, hid⟩ := List.mem_map.mp hmem
    show e.id < (checkJobsGo oracle s.pending.length s 0 [] []).state.nextId
    rw [hnext, ← hid]
    exact hbound e2 he2
  · intro k hk
    show k < (checkJobsGo oracle s.pending.length s 0 [] []).state.nextId
    rw [hnext]
    exact hpb k (hpend k hk)

theorem applyOp_inv (op : Op) (s : MState) (hi : Inv s) : Inv (applyOp op s) := by
  cases op with
  | ingest f sub entry => exact addEpInsertOk_inv f sub entry s hi
  | reconcile oracle => exact checkJobs_inv oracle s hi

theorem applyOp_untouched (op : Op) (s : MState) (e : Episode) (hi : Inv s)
    (he : e ∈ s.store) (hex : ∀ k ∈ s.pending, k ≠ e.id) :
    e ∈ (applyOp op s).store ∧ ∀ k ∈ (applyOp op s).pending, k ≠ e.id := by
  obtain ⟨hnod, hbound, hpb, hpnod, hexcl⟩ := hi
  cases op with
  | reconcile oracle =>
    constructor
    · exact checkJobsGo_untouched oracle s.pending.length s 0 [] [] e he hex
    · intro k hk
      exact hex k ((checkJobsGo_shape oracle s.pending.length s 0 [] []).2.2 k hk)
  | ingest f sub entry =>
    show e ∈ (addEpInsertOk f sub entry s).1.store ∧
      ∀ k ∈ (addEpInsertOk f sub entry s).1.pending, k ≠ e.id
    cases hfind : findByHash s.store (entryHash entry) with
    | some x =>
      have hrun : addEpInsertOk f sub entry s = (s, false) := by
        unfold addEpInsertOk
        rw [hfind]
      rw [hrun]
      exact ⟨he, hex⟩
    | none =>
      rw [addEpInsertOk_create_reduced f sub entry s hfind]
      by_cases hs : f < entry.contentlength
      · rw [if_pos hs]
        exact ⟨List.mem_append_left _ he, hex⟩
      · rw [if_neg hs]
        cases sub with
        | none => exact ⟨List.mem_append_left _ he, hex⟩
        | some gid =>
          have hupd := updateEp_append_fresh s.store (freshEpisode s entry)
            (markDownloading gid) (fun e2 he2 => Nat.ne_of_lt (hbound e2 he2))
          constructor
          · show e ∈ updateEp (s.store ++ [freshEpisode s entry])
              (freshEpisode s entry).id (markDownloading gid)
            rw [hupd]
            exact List.mem_append_left _ he
          · intro k hk
            rcases List.mem_append.mp hk with h0 | h0
            · exact hex k h0
            · rw [List.mem_singleton.mp h0]
              exact fun hcon => absurd (hbound e he) (by rw [← hcon]; exact lt_irrefl _)

theorem applyOps_untouched (ops : List Op) :
    ∀ (s : MState) (e : Episode), Inv s → e ∈ s.store →
      (∀ k ∈ s.pending, k ≠ e.id) →
      e ∈ (applyOps ops s).store ∧ Inv (applyOps ops s) := by
  induction ops with
  | nil => exact fun s e hi he _ => ⟨he, hi⟩
  | cons op t ih =>
    intro s e hi he hex
    obtain ⟨he2, hex2⟩ := applyOp_untouched op s e hi he hex
    exact ih (applyOp op s) e (applyOp_inv op s hi) he2 hex2

theorem reachable_inv : ∀ s, Reachable s → Inv s := by
  intro s h
  induction h with
  | init s hi => exact init_inv s hi
  | step s op _ ih => exact applyOp_inv op s ih

/-- C9: terminal states are absorbing.  For every reachable state, every
stored episode in a terminal state (`Ignored` 1, `Failed` 3, `Completed`
4) is left completely untouched by every further sequence of system
operations (ingestion with any feed entry and external outcome,
reconciliation with any daemon answers): the store's row for its id is
still exactly that record — same status, same every field. -/
theorem terminal_states_absorbing (s : MState) (hr : Reachable s) (e : Episode)
    (he : e ∈ s.store)
    (ht : e.download_status = 1 ∨ e.download_status = 3 ∨ e.download_status = 4)
    (ops : List Op) :
    lookupId (applyOps ops s).store e.id = some e := by
  have hinv := reachable_inv s hr
  have hds : e.download_status ≠ 2 := by rcases ht with h | h | h <;> omega
  have hex : ∀ k ∈ s.pending, k ≠ e.id := hinv.2.2.2.2 e he hds
  obtain ⟨hmem, hinv2⟩ := applyOps_untouched ops s e hinv he hex
  exact lookupId_of_mem_nodup _ e hmem hinv2.1

def c9Ep : Episode := ⟨1, "done", none, 10, 0, "u", some "gg", 3⟩

def c9State : MState := ⟨[c9Ep], [], 5⟩

def c9Entry : Entry := ⟨"new", ["http://x/h9", "http://x/h9.torrent"], 7, 0⟩

def c9Oracle : Oracle := fun _ => .ok ⟨[], "complete", ["/d/x"]⟩

def c9Ops : List Op := [Op.reconcile c9Oracle, Op.ingest 1000 (some "g9") c9Entry]

theorem terminal_states_absorbing_witness :
    (Init c9State ∧ c9Ep ∈ c9State.store ∧
     (c9Ep.download_status = 1 ∨ c9Ep.download_status = 3 ∨
      c9Ep.download_status = 4)) ∧
    lookupId (applyOps c9Ops c9State).store c9Ep.id = some c9Ep :=
  ⟨⟨⟨⟨by decide, by decide⟩, by decide⟩, by decide, Or.inr (Or.inl rfl)⟩,
   terminal_states_absorbing c9State
     (Reachable.init c9State ⟨⟨by decide, by decide⟩, by decide⟩) c9Ep
     (by decide) (Or.inr (Or.inl rfl)) c9Ops⟩

end MikanPro
